import Mathlib

/-!
Verification of the context-retrieval core of the repository
(file mcp_integration.py): corpus store, retriever, response
formatter and request facade.

Modelling conventions:
* Python strings are Lean `String`; the substring operator `in` is
  `pyContains`, and `str.lower()` is `strLower` (per-character lowering).
* numpy float vectors are `List Rat`; `np.dot` is `dotp`;
  `np.linalg.norm v` is `sqrt_fn (dotp v v)` where `sqrt_fn` is an
  uninterpreted square-root kept in the server state - every claim
  below is independent of the actual values of the square root, so the
  float square root is abstracted rather than axiomatised.
* `np.argsort` (ascending, stable for the small corpora this server
  holds, where numpy uses insertion sort) is `argsortAsc`: a stable
  insertion sort of the index list, with the stable tie-break by
  ascending index folded into the comparison relation.
* Python list slicing `l[:k]` for an arbitrary integer `k` is `pyTake`.
* The server fields `company_data`, `embedding_model`, `doc_embeddings`
  become the structure `ServerState`; a failed `load_data` leaves
  `company_data = []` and both optional fields `none`, exactly as the
  `except` branch of the source does.
-/

/-- A company-data document: the `{id, title, content}` records of the
corpus JSON file. -/
structure Doc where
  id : String
  title : String
  content : String
deriving DecidableEq, Repr

/-- Default document used to total out list indexing; never reached when
the corpus and its embeddings have equal length (the invariant that
`load_data` establishes). -/
def emptyDoc : Doc := ⟨"", "", ""⟩

/-- Dot product of two numeric vectors, `np.dot` on equal-length vectors. -/
def dotp (a b : List Rat) : Rat := (List.zipWith (fun x y => x * y) a b).sum

/-- The `1e-10` guard added to the denominator of the cosine similarity. -/
def epsSim : Rat := 1 / 10000000000

/-- Per-document cosine similarity scores of the source line
`similarities = np.dot(self.doc_embeddings, query_emb) /
(np.linalg.norm(self.doc_embeddings, axis=1) * np.linalg.norm(query_emb) + 1e-10)`;
the Euclidean norm of `v` is the square root of `dotp v v`. -/
def simScores (dembs : List (List Rat)) (sqrt_fn : Rat → Rat)
    (query_emb : List Rat) : List Rat :=
  dembs.map (fun d =>
    dotp d query_emb /
      (sqrt_fn (dotp d d) * sqrt_fn (dotp query_emb query_emb) + epsSim))

/-- Comparison relation used to model `np.argsort` on the score list
`xs`: ascending by score, ties broken by ascending index (the stable
order numpy produces on these small arrays). -/
def argsortRel (xs : List Rat) (i j : Nat) : Prop :=
  xs.getD i 0 < xs.getD j 0 ∨ (xs.getD i 0 = xs.getD j 0 ∧ i ≤ j)

instance (xs : List Rat) (i j : Nat) : Decidable (argsortRel xs i j) :=
  inferInstanceAs (Decidable (_ ∨ _))

instance (xs : List Rat) : IsTotal Nat (argsortRel xs) where
  total i j := by
    rcases lt_trichotomy (xs.getD i 0) (xs.getD j 0) with h | h | h
    · exact Or.inl (Or.inl h)
    · rcases Nat.le_total i j with hij | hij
      · exact Or.inl (Or.inr ⟨h, hij⟩)
      · exact Or.inr (Or.inr ⟨h.symm, hij⟩)
    · exact Or.inr (Or.inl h)

instance (xs : List Rat) : IsTrans Nat (argsortRel xs) where
  trans i j k hij hjk := by
    rcases hij with h1 | ⟨e1, l1⟩
    · rcases hjk with h2 | ⟨e2, l2⟩
      · exact Or.inl (h1.trans h2)
      · exact Or.inl (by rw [← e2]; exact h1)
    · rcases hjk with h2 | ⟨e2, l2⟩
      · exact Or.inl (by rw [e1]; exact h2)
      · exact Or.inr ⟨e1.trans e2, l1.trans l2⟩

/-- Model of `np.argsort(xs)`: the indices `0, ..., xs.length - 1`
stably sorted by ascending score. -/
def argsortAsc (xs : List Rat) : List Nat :=
  List.insertionSort (argsortRel xs) (List.range xs.length)

/-- Python slicing `l[:k]` for an arbitrary integer `k`: a nonnegative
`k` keeps the first `k` elements, a negative `k` drops the last `-k`. -/
def pyTake (k : Int) (l : List α) : List α :=
  if 0 ≤ k then l.take k.toNat else l.take (l.length - (-k).toNat)

/-- The descending ranking `top_indices = np.argsort(similarities)[::-1]`
of the embedding search path. -/
def rankedIndices (dembs : List (List Rat)) (sqrt_fn : Rat → Rat)
    (query_emb : List Rat) : List Nat :=
  (argsortAsc (simScores dembs sqrt_fn query_emb)).reverse

/-- Per-character lowering, the model of Python `str.lower()`. -/
def strLower (s : String) : String := ⟨s.data.map Char.toLower⟩

/-- Boolean list-prefix test (structural, so that concrete instances
evaluate in the kernel). -/
def charsPrefixOf : List Char → List Char → Bool
  | [], _ => true
  | _ :: _, [] => false
  | a :: as, b :: bs => a == b && charsPrefixOf as bs

/-- Python substring operator `needle in hay` on strings: `needle`
occurs contiguously in `hay` (at any of the `hay.length + 1` start
positions, so the empty needle always matches). -/
def pyContains (needle hay : String) : Bool :=
  (List.range (hay.data.length + 1)).any
    (fun i => charsPrefixOf needle.data (hay.data.drop i))

/-- The per-document predicate of the keyword fallback: the lowered
query occurs in the lowered title or in the lowered content (the source
tests the lowered query with the Python substring operator against
doc.title.lower() and doc.content.lower()). -/
def keywordMatch (query : String) (doc : Doc) : Bool :=
  pyContains (strLower query) (strLower doc.title) ||
    pyContains (strLower query) (strLower doc.content)

/-- The state of `CompanyDataMCPServer`: the corpus, the optional
embedding model (as the query-encoding function it provides), the
optional document-embedding matrix, and the abstract square root used
by the norm computation. -/
structure ServerState where
  company_data : List Doc
  embedding_model : Option (String → List Rat)
  doc_embeddings : Option (List (List Rat))
  sqrt_fn : Rat → Rat

/-- `CompanyDataMCPServer.load_data`: on success the corpus is the
parsed document list and one embedding is computed per document from
the title and the content joined by a single space; on any failure (unreadable or
malformed JSON, or embedding-model initialisation failure, collapsed
into the `none` input) the corpus becomes empty and both the model and
the embeddings are cleared, exactly as the `except` branch does. -/
def load_data (sqrt_fn : Rat → Rat)
    (raw : Option (List Doc × (String → List Rat))) : ServerState :=
  match raw with
  | some (docs, model) =>
      { company_data := docs
        embedding_model := some model
        doc_embeddings :=
          some (docs.map (fun doc => model (doc.title ++ " " ++ doc.content)))
        sqrt_fn := sqrt_fn }
  | none =>
      { company_data := []
        embedding_model := none
        doc_embeddings := none
        sqrt_fn := sqrt_fn }

/-- `CompanyDataMCPServer.search_data(query, top_k=3, similarity_threshold=0.3)`.
If either the model or the embeddings are missing, the keyword fallback
filters the corpus by `keywordMatch` (no truncation, original order).
Otherwise the embedding path encodes the query, ranks all documents by
descending cosine similarity and keeps the slice `[:top_k]`. The
`similarity_threshold` argument is never read, as in the source. -/
def search_data (st : ServerState) (query : String)
    (top_k : Int) (similarity_threshold : Rat) : List Doc :=
  match st.embedding_model, st.doc_embeddings with
  | some model, some dembs =>
      (pyTake top_k (rankedIndices dembs st.sqrt_fn (model query))).map
        (fun i => st.company_data.getD i emptyDoc)
  | _, _ => st.company_data.filter (keywordMatch query)

/-- Concrete corpus documents used to instantiate the theorems below on
closed inputs (mirroring the demo corpus of the repository). -/
def exDocA : Doc := ⟨"1", "Company Profile", "TechCorp was founded in 2010"⟩

/-- Second concrete corpus document for closed instantiations. -/
def exDocB : Doc := ⟨"2", "Products", "TechCorp offers TechAssist"⟩

/-- The MCP request as `handle_request` reads it: only the `query` key
matters, and the dictionary lookup with an empty-string default makes
it optional. Other keys
(such as `type`) are ignored by the handler. -/
structure MCPRequest where
  query : Option String

/-- One entry of the response envelope produced by `handle_request`. -/
structure FormattedResult where
  title : String
  content : String
  source : String
deriving DecidableEq, Repr

/-- The response envelope `{results, query, total_results}`. -/
structure MCPResponse where
  results : List FormattedResult
  query : String
  total_results : Nat
deriving DecidableEq, Repr

/-- The per-document formatting step of `handle_request`. -/
def formatResult (doc : Doc) : FormattedResult :=
  { title := doc.title
    content := doc.content
    source := "Company Database - " ++ doc.id }

/-- `CompanyDataMCPServer.handle_request`: reads `query` with the empty
string as default, searches with the default `top_k = 3` and default
`similarity_threshold = 0.3` (the float `0.3` is exactly the unused
rational `3/10` here), and wraps the results. -/
def handle_request (st : ServerState) (req : MCPRequest) : MCPResponse :=
  let query := req.query.getD ""
  let results := search_data st query 3 (3 / 10)
  let formatted := results.map formatResult
  { results := formatted
    query := query
    total_results := formatted.length }

/-- `CompanyDataMCPClient.format_for_llm`: the canonical no-data string
when the response is absent or has no results, otherwise the header
followed by one `--- title ---\ncontent\n\n` block per result, built by
string accumulation as in the source. -/
def format_for_llm (response : Option MCPResponse) : String :=
  match response with
  | none => "No relevant company information found."
  | some r =>
      if r.results = [] then "No relevant company information found."
      else
        r.results.foldl
          (fun acc res =>
            acc ++ ("--- " ++ res.title ++ " ---\n") ++ (res.content ++ "\n\n"))
          "COMPANY INFORMATION:\n\n"

/-! ## Helper lemmas -/

/-- The match in `search_data` reduces to the keyword branch as soon as
the embedding model is `none`, whatever the embeddings field holds. -/
theorem search_data_keyword (docs : List Doc) (odembs : Option (List (List Rat)))
    (sq : Rat → Rat) (q : String) (k : Int) (t : Rat) :
    search_data ⟨docs, none, odembs, sq⟩ q k t = docs.filter (keywordMatch q) := by
  cases odembs <;> rfl

/-- The embedding branch of `search_data`, spelled out. -/
theorem search_data_embedding (docs : List Doc) (model : String → List Rat)
    (dembs : List (List Rat)) (sq : Rat → Rat) (q : String) (k : Int) (t : Rat) :
    search_data ⟨docs, some model, some dembs, sq⟩ q k t =
      (pyTake k (rankedIndices dembs sq (model q))).map
        (fun i => docs.getD i emptyDoc) := rfl

/-- The empty needle occurs in every haystack (start position zero). -/
theorem pyContains_empty (hay : String) : pyContains "" hay = true := by
  apply List.any_eq_true.mpr
  exact ⟨0, List.mem_range.mpr (Nat.succ_pos _), rfl⟩

theorem strLower_empty : strLower "" = "" := rfl

/-- Every document matches the empty query on the keyword path. -/
theorem filter_keywordMatch_empty (docs : List Doc) :
    docs.filter (keywordMatch "") = docs := by
  apply List.filter_eq_self.mpr
  intro d _
  simp [keywordMatch, strLower_empty, pyContains_empty]

/-- Folding string append from an initial accumulator prepends the
accumulator to the join of the list. -/
theorem strFoldl_append (l : List String) (init : String) :
    l.foldl (fun a b => a ++ b) init = init ++ String.join l := by
  induction l generalizing init with
  | nil => exact (String.append_empty init).symm
  | cons a l ih =>
      show List.foldl _ (init ++ a) l = _
      rw [ih (init ++ a)]
      have h : String.join (a :: l) = a ++ String.join l := by
        show List.foldl _ ("" ++ a) l = _
        rw [String.empty_append, ih a]
      rw [h, String.append_assoc]

/-- The accumulation loop of `format_for_llm` equals the initial header
followed by the join of the per-result blocks. -/
theorem foldl_format_join (f : FormattedResult → String)
    (l : List FormattedResult) (init : String) :
    l.foldl (fun acc r => acc ++ f r) init = init ++ String.join (l.map f) := by
  induction l generalizing init with
  | nil => exact (String.append_empty init).symm
  | cons a l ih =>
      show List.foldl _ (init ++ f a) l = _
      rw [ih (init ++ f a)]
      have h : String.join (f a :: l.map f) = f a ++ String.join (l.map f) := by
        show List.foldl _ ("" ++ f a) (l.map f) = _
        rw [String.empty_append, strFoldl_append]
      rw [List.map_cons, h, String.append_assoc]

/-! ## Claim theorems -/

/-- C2: the `similarity_threshold` argument of `search_data` is accepted
but never read, so any two threshold values produce identical result
lists on every state, query and `top_k`. -/
theorem search_data_threshold_irrelevant (st : ServerState) (q : String)
    (k : Int) (t1 t2 : Rat) :
    search_data st q k t1 = search_data st q k t2 := rfl

/-- C3: on the keyword fallback path (no embedding model) a document is
returned iff the lowered query occurs in its lowered title or lowered
content; the result is a sublist of the corpus (original order), and the
`top_k` and threshold arguments never change the result. -/
theorem search_data_keyword_characterisation (docs : List Doc)
    (odembs : Option (List (List Rat))) (sq : Rat → Rat) (q : String)
    (k : Int) (t : Rat) :
    (∀ d, d ∈ search_data ⟨docs, none, odembs, sq⟩ q k t ↔
        d ∈ docs ∧ keywordMatch q d = true) ∧
    (search_data ⟨docs, none, odembs, sq⟩ q k t).Sublist docs ∧
    (∀ (k2 : Int) (t2 : Rat),
        search_data ⟨docs, none, odembs, sq⟩ q k2 t2 =
          search_data ⟨docs, none, odembs, sq⟩ q k t) := by
  refine ⟨?_, ?_, ?_⟩
  · intro d
    rw [search_data_keyword]
    exact List.mem_filter
  · rw [search_data_keyword]
    exact List.filter_sublist docs
  · intro k2 t2
    rw [search_data_keyword, search_data_keyword]

/-- C4: `format_for_llm` returns the literal no-data string exactly on
an absent response or empty result list, and otherwise the header
`COMPANY INFORMATION:` followed by one `--- title ---` block with the
content and a blank line per result, in order. -/
theorem format_for_llm_spec (resp : Option MCPResponse) :
    format_for_llm resp =
      match resp with
      | none => "No relevant company information found."
      | some r =>
          if r.results = [] then "No relevant company information found."
          else "COMPANY INFORMATION:\n\n" ++
            String.join (r.results.map
              (fun res => "--- " ++ res.title ++ " ---\n" ++ res.content ++ "\n\n")) := by
  cases resp with
  | none => rfl
  | some r =>
      by_cases h : r.results = []
      · simp [format_for_llm, h]
      · simp only [format_for_llm, if_neg h]
        have hfun : (fun (acc : String) (res : FormattedResult) =>
            acc ++ ("--- " ++ res.title ++ " ---\n") ++ (res.content ++ "\n\n")) =
            (fun acc res =>
              acc ++ (("--- " ++ res.title ++ " ---\n") ++ (res.content ++ "\n\n"))) := by
          funext acc res
          rw [String.append_assoc]
        rw [hfun, foldl_format_join]
        have hent : (fun (res : FormattedResult) =>
            ("--- " ++ res.title ++ " ---\n") ++ (res.content ++ "\n\n")) =
            (fun res => "--- " ++ res.title ++ " ---\n" ++ res.content ++ "\n\n") := by
          funext res
          simp [String.append_assoc]
        rw [hent]

/-- C5: on a request carrying a query string, `handle_request` echoes
the query, returns the documents found by `search_data` with the default
`top_k = 3` and default threshold mapped into
`{title, content, source: Company Database - id}` entries, and reports
`total_results` equal to the length of that list. -/
theorem handle_request_envelope (st : ServerState) (q : String) :
    (handle_request st ⟨some q⟩).query = q ∧
    (handle_request st ⟨some q⟩).results =
      (search_data st q 3 (3 / 10)).map formatResult ∧
    (handle_request st ⟨some q⟩).total_results =
      (handle_request st ⟨some q⟩).results.length :=
  ⟨rfl, rfl, rfl⟩

/-- C6: when loading fails for any reason, the state has an empty corpus
and no embeddings, and every subsequent `search_data` call is a total
function returning the empty list - the failure never reaches a search
caller. -/
theorem load_failure_search_empty (sq : Rat → Rat) (q : String) (k : Int) (t : Rat) :
    search_data (load_data sq none) q k t = [] := rfl

/-- C8: the empty query is valid input; on the keyword path it occurs in
every title, hence every corpus document is returned. -/
theorem search_data_empty_query_returns_all (docs : List Doc)
    (odembs : Option (List (List Rat))) (sq : Rat → Rat) (k : Int) (t : Rat) :
    search_data ⟨docs, none, odembs, sq⟩ "" k t = docs := by
  rw [search_data_keyword, filter_keywordMatch_empty]

/-- C10: a request without a query key is handled as the empty query:
no failure, the echoed query is the empty string, the results are those
of `search_data` on the empty query, and on the keyword path the whole
corpus is returned. -/
theorem handle_request_missing_query (st : ServerState) :
    handle_request st ⟨none⟩ = handle_request st ⟨some ""⟩ ∧
    (handle_request st ⟨none⟩).query = "" ∧
    (handle_request st ⟨none⟩).results =
      (search_data st "" 3 (3 / 10)).map formatResult ∧
    (∀ (docs : List Doc) (odembs : Option (List (List Rat))) (sq : Rat → Rat),
      (handle_request ⟨docs, none, odembs, sq⟩ ⟨none⟩).results =
        docs.map formatResult) := by
  refine ⟨rfl, rfl, rfl, ?_⟩
  intro docs odembs sq
  show (search_data ⟨docs, none, odembs, sq⟩ "" 3 (3 / 10)).map formatResult = _
  rw [search_data_keyword, filter_keywordMatch_empty]

/-! ## Ranking lemmas -/

theorem argsortAsc_perm (xs : List Rat) :
    (argsortAsc xs).Perm (List.range xs.length) :=
  List.perm_insertionSort _ _

theorem argsortAsc_sorted (xs : List Rat) :
    (argsortAsc xs).Pairwise (argsortRel xs) :=
  List.sorted_insertionSort (argsortRel xs) (List.range xs.length)

theorem argsortAsc_length (xs : List Rat) :
    (argsortAsc xs).length = xs.length := by
  have h := (argsortAsc_perm xs).length_eq
  rwa [List.length_range] at h

theorem simScores_length (dembs : List (List Rat)) (sq : Rat → Rat)
    (qe : List Rat) : (simScores dembs sq qe).length = dembs.length := by
  simp [simScores]

theorem rankedIndices_length (dembs : List (List Rat)) (sq : Rat → Rat)
    (qe : List Rat) : (rankedIndices dembs sq qe).length = dembs.length := by
  unfold rankedIndices
  rw [List.length_reverse, argsortAsc_length, simScores_length]

theorem rankedIndices_nodup (dembs : List (List Rat)) (sq : Rat → Rat)
    (qe : List Rat) : (rankedIndices dembs sq qe).Nodup := by
  unfold rankedIndices
  rw [List.nodup_reverse]
  exact (argsortAsc_perm _).symm.nodup (List.nodup_range _)

theorem rankedIndices_mem (dembs : List (List Rat)) (sq : Rat → Rat)
    (qe : List Rat) (i : Nat) (h : i ∈ rankedIndices dembs sq qe) :
    i < dembs.length := by
  unfold rankedIndices at h
  rw [List.mem_reverse] at h
  have h2 := ((argsortAsc_perm _).mem_iff).mp h
  rw [List.mem_range, simScores_length] at h2
  exact h2

theorem rankedIndices_mem_of_lt (dembs : List (List Rat)) (sq : Rat → Rat)
    (qe : List Rat) (i : Nat) (h : i < dembs.length) :
    i ∈ rankedIndices dembs sq qe := by
  unfold rankedIndices
  rw [List.mem_reverse]
  exact ((argsortAsc_perm _).mem_iff).mpr
    (List.mem_range.mpr (by rwa [simScores_length]))

theorem rankedIndices_pairwise (dembs : List (List Rat)) (sq : Rat → Rat)
    (qe : List Rat) :
    (rankedIndices dembs sq qe).Pairwise
      (fun a b => argsortRel (simScores dembs sq qe) b a) := by
  unfold rankedIndices
  exact List.pairwise_reverse.mpr (argsortAsc_sorted _)

theorem pyTake_sublist (k : Int) (l : List α) : (pyTake k l).Sublist l := by
  unfold pyTake
  split <;> exact List.take_sublist _ _

/-- Among two distinct members of a list, one of the two orders occurs
as a sublist. -/
theorem pair_sublist_of_mem (l : List Nat) (a b : Nat)
    (ha : a ∈ l) (hb : b ∈ l) (hab : a ≠ b) :
    [a, b].Sublist l ∨ [b, a].Sublist l := by
  induction l with
  | nil => cases ha
  | cons x l ih =>
      by_cases hxa : x = a
      · subst hxa
        have hb2 : b ∈ l := by
          cases List.mem_cons.mp hb with
          | inl h => exact absurd h.symm hab
          | inr h => exact h
        exact Or.inl ((List.singleton_sublist.mpr hb2).cons₂ x)
      · by_cases hxb : x = b
        · subst hxb
          have ha2 : a ∈ l := by
            cases List.mem_cons.mp ha with
            | inl h => exact absurd h (fun h2 => hxa h2.symm)
            | inr h => exact h
          exact Or.inr ((List.singleton_sublist.mpr ha2).cons₂ x)
        · have ha2 : a ∈ l := by
            cases List.mem_cons.mp ha with
            | inl h => exact absurd h (fun h2 => hxa h2.symm)
            | inr h => exact h
          have hb2 : b ∈ l := by
            cases List.mem_cons.mp hb with
            | inl h => exact absurd h (fun h2 => hxb h2.symm)
            | inr h => exact h
          exact (ih ha2 hb2).imp (List.Sublist.cons x) (List.Sublist.cons x)

/-- C1: in embedding mode over a corpus matching its embedding matrix,
`search_data` returns exactly the documents at the first
`min(top_k, n)` positions of the descending-similarity ranking: the
result has length `min(top_k, n)`, its index sequence is duplicate-free
and in range, and consecutive results have non-increasing cosine
similarity scores `sim(d, q) = dot(d, q) / (norm d * norm q + 1e-10)`
with respect to the encoded query. -/
theorem search_data_embedding_ranked (docs : List Doc) (dembs : List (List Rat))
    (model : String → List Rat) (sq : Rat → Rat) (q : String) (k : Int) (t : Rat)
    (hk : 1 ≤ k) (hlen : dembs.length = docs.length) (hne : docs ≠ []) :
    search_data ⟨docs, some model, some dembs, sq⟩ q k t =
      (pyTake k (rankedIndices dembs sq (model q))).map
        (fun i => docs.getD i emptyDoc) ∧
    (search_data ⟨docs, some model, some dembs, sq⟩ q k t).length =
      min k.toNat docs.length ∧
    (pyTake k (rankedIndices dembs sq (model q))).Nodup ∧
    (∀ i ∈ pyTake k (rankedIndices dembs sq (model q)), i < docs.length) ∧
    (pyTake k (rankedIndices dembs sq (model q))).Pairwise
      (fun a b => (simScores dembs sq (model q)).getD b 0 ≤
        (simScores dembs sq (model q)).getD a 0) := by
  have hrl : (rankedIndices dembs sq (model q)).length = docs.length := by
    rw [rankedIndices_length, hlen]
  refine ⟨rfl, ?_, ?_, ?_, ?_⟩
  · rw [search_data_embedding, List.length_map]
    unfold pyTake
    rw [if_pos (show (0 : Int) ≤ k by omega)]
    rw [List.length_take, hrl]
  · exact List.Nodup.sublist (pyTake_sublist k _) (rankedIndices_nodup dembs sq (model q))
  · intro i hi
    have h := rankedIndices_mem dembs sq (model q) i ((pyTake_sublist k _).subset hi)
    omega
  · refine List.Pairwise.sublist (pyTake_sublist k _)
      ((rankedIndices_pairwise dembs sq (model q)).imp ?_)
    intro a b h
    rcases h with hlt | ⟨heq, _⟩
    · exact le_of_lt hlt
    · exact le_of_eq heq

/-- Witness for C1 on a concrete two-document corpus with `top_k = 1`. -/
theorem search_data_embedding_ranked_witness :
    ((1 : Int) ≤ 1 ∧
      ([[(1 : Rat)], [2]] : List (List Rat)).length = [exDocA, exDocB].length ∧
      [exDocA, exDocB] ≠ []) ∧
    (search_data ⟨[exDocA, exDocB], some (fun _ => [(1 : Rat)]), some [[1], [2]],
        fun x => x⟩ "hi" 1 (3 / 10)).length =
      min (1 : Int).toNat [exDocA, exDocB].length :=
  ⟨⟨by decide, by decide, by decide⟩,
    (search_data_embedding_ranked [exDocA, exDocB] [[1], [2]]
      (fun _ => [(1 : Rat)]) (fun x => x) "hi" 1 (3 / 10)
      (by decide) (by decide) (by decide)).2.1⟩

/-- C9: in embedding mode, `top_k = 0` yields the empty result (Python
slice `[:0]`), and a negative `top_k = -m` yields the first
`n - m` (clamped at zero) documents of the descending ranking, exactly
Python slice semantics - the value is neither rejected nor clamped. -/
theorem search_data_nonpositive_topk (docs : List Doc) (dembs : List (List Rat))
    (model : String → List Rat) (sq : Rat → Rat) (q : String) (t : Rat)
    (hlen : dembs.length = docs.length) :
    search_data ⟨docs, some model, some dembs, sq⟩ q 0 t = [] ∧
    (∀ m : Nat, 0 < m →
      search_data ⟨docs, some model, some dembs, sq⟩ q (-(m : Int)) t =
        ((rankedIndices dembs sq (model q)).take (docs.length - m)).map
          (fun i => docs.getD i emptyDoc)) := by
  constructor
  · rw [search_data_embedding]
    have h0 : pyTake (0 : Int) (rankedIndices dembs sq (model q)) = [] := by
      unfold pyTake
      rw [if_pos le_rfl]
      rfl
    rw [h0]
    rfl
  · intro m hm
    rw [search_data_embedding]
    have harg : pyTake (-(m : Int)) (rankedIndices dembs sq (model q)) =
        (rankedIndices dembs sq (model q)).take (docs.length - m) := by
      unfold pyTake
      rw [if_neg (show ¬ (0 : Int) ≤ -(m : Int) by omega)]
      have h1 : (-(-(m : Int))).toNat = m := by simp
      rw [h1, rankedIndices_length, hlen]
    rw [harg]

/-- Witness for C9 on a concrete two-document corpus. -/
theorem search_data_nonpositive_topk_witness :
    (([[(1 : Rat)], [2]] : List (List Rat)).length = [exDocA, exDocB].length) ∧
    search_data ⟨[exDocA, exDocB], some (fun _ => [(1 : Rat)]), some [[1], [2]],
      fun x => x⟩ "hi" 0 (3 / 10) = [] :=
  ⟨by decide,
    (search_data_nonpositive_topk [exDocA, exDocB] [[1], [2]]
      (fun _ => [(1 : Rat)]) (fun x => x) "hi" (3 / 10) (by decide)).1⟩

/-- On a two-element score list with a tie, the ascending stable argsort
keeps the original index order. -/
theorem argsortAsc_pair_tie (a : Rat) : argsortAsc [a, a] = [0, 1] := by
  have h01 : argsortRel [a, a] 0 1 := Or.inr ⟨rfl, by omega⟩
  unfold argsortAsc
  show List.insertionSort (argsortRel [a, a]) [0, 1] = [0, 1]
  simp [List.insertionSort, List.orderedInsert, h01]

/-- C7 (amended): whenever two corpus positions `i < j` have equal
similarity scores, the descending ranking places the later position `j`
before the earlier position `i` - the stable ascending argsort keeps
ties in ascending index order, and the final reversal flips them - and
with `top_k = n` the search output is the whole corpus in exactly that
ranking order. -/
theorem search_data_tie_descending_index (docs : List Doc)
    (dembs : List (List Rat)) (model : String → List Rat) (sq : Rat → Rat)
    (q : String) (t : Rat) (i j : Nat) (hij : i < j) (hj : j < dembs.length)
    (htie : (simScores dembs sq (model q)).getD i 0 =
      (simScores dembs sq (model q)).getD j 0) :
    [j, i].Sublist (rankedIndices dembs sq (model q)) ∧
    search_data ⟨docs, some model, some dembs, sq⟩ q (dembs.length : Int) t =
      (rankedIndices dembs sq (model q)).map (fun idx => docs.getD idx emptyDoc) := by
  constructor
  · have hslen : (simScores dembs sq (model q)).length = dembs.length :=
      simScores_length dembs sq (model q)
    have hi_mem : i ∈ argsortAsc (simScores dembs sq (model q)) :=
      ((argsortAsc_perm _).mem_iff).mpr (List.mem_range.mpr (by omega))
    have hj_mem : j ∈ argsortAsc (simScores dembs sq (model q)) :=
      ((argsortAsc_perm _).mem_iff).mpr (List.mem_range.mpr (by omega))
    rcases pair_sublist_of_mem _ i j hi_mem hj_mem (by omega) with hgood | hbad
    · exact hgood.reverse
    · exfalso
      have hpair := List.Pairwise.sublist hbad (argsortAsc_sorted _)
      have hrel : argsortRel (simScores dembs sq (model q)) j i :=
        (List.pairwise_cons.mp hpair).1 i (List.mem_singleton.mpr rfl)
      rcases hrel with hlt | ⟨_, hle⟩
      · rw [htie] at hlt
        exact lt_irrefl _ hlt
      · omega
  · rw [search_data_embedding]
    have hfull : pyTake (dembs.length : Int) (rankedIndices dembs sq (model q)) =
        rankedIndices dembs sq (model q) := by
      unfold pyTake
      rw [if_pos (show (0 : Int) ≤ (dembs.length : Int) by omega)]
      rw [Int.toNat_natCast, ← rankedIndices_length dembs sq (model q)]
      exact List.take_length _
    rw [hfull]

/-- Witness for the amended C7 on a corpus with two identically embedded
documents. -/
theorem search_data_tie_descending_index_witness :
    ((0 : Nat) < 1 ∧ 1 < ([[(1 : Rat)], [1]] : List (List Rat)).length ∧
      (simScores [[(1 : Rat)], [1]] (fun x => x) [1]).getD 0 0 =
        (simScores [[(1 : Rat)], [1]] (fun x => x) [1]).getD 1 0) ∧
    [1, 0].Sublist (rankedIndices [[(1 : Rat)], [1]] (fun x => x) [1]) :=
  ⟨⟨by decide, by decide, rfl⟩,
    (search_data_tie_descending_index [exDocA, exDocB] [[(1 : Rat)], [1]]
      (fun _ => [(1 : Rat)]) (fun x => x) "q" (3 / 10) 0 1
      (by decide) (by decide) rfl).1⟩

/-- C7 (counterexample to the claim as stated): on a corpus of two
distinct documents with identical embeddings - hence exactly equal
similarity scores - the embedding search returns the second document
before the first, not the ascending corpus order the claim asserts. -/
theorem search_data_tie_counterexample :
    search_data ⟨[exDocA, exDocB], some (fun _ => [(1 : Rat)]), some [[1], [1]],
        fun x => x⟩ "q" 2 (3 / 10) = [exDocB, exDocA] ∧
    (simScores [[(1 : Rat)], [1]] (fun x => x) [1]).getD 0 0 =
      (simScores [[(1 : Rat)], [1]] (fun x => x) [1]).getD 1 0 ∧
    search_data ⟨[exDocA, exDocB], some (fun _ => [(1 : Rat)]), some [[1], [1]],
        fun x => x⟩ "q" 2 (3 / 10) ≠ [exDocA, exDocB] := by
  obtain ⟨e, he⟩ : ∃ e, simScores [[(1 : Rat)], [1]] (fun x => x) [1] = [e, e] :=
    ⟨_, rfl⟩
  have hr : rankedIndices [[(1 : Rat)], [1]] (fun x => x) [1] = [1, 0] := by
    unfold rankedIndices
    rw [he, argsortAsc_pair_tie]
    rfl
  have h1 : search_data ⟨[exDocA, exDocB], some (fun _ => [(1 : Rat)]),
      some [[1], [1]], fun x => x⟩ "q" 2 (3 / 10) = [exDocB, exDocA] := by
    show (pyTake 2 (rankedIndices [[(1 : Rat)], [1]] (fun x => x) [1])).map
      (fun i => [exDocA, exDocB].getD i emptyDoc) = [exDocB, exDocA]
    rw [hr]
    rfl
  refine ⟨h1, rfl, ?_⟩
  rw [h1]
  decide
